import Mathlib

/-!
Verification development for the news-autoposting pipeline in
`src/telegrambot.py`.  The Python module is shallowly embedded below:
pure helpers become Lean functions over `String`/`List Char`, the mutable
`posted_articles` dict becomes an explicit association list threaded
through the functions, network fetches and the language-model call become
explicit parameters (their results), and timestamps become `Int` seconds.
-/

set_option maxRecDepth 4000

/-! ## Python string primitives

The scraping helpers in `telegrambot.py` use `str.split`, `str.find`,
slicing, `str.lower`, the substring operator `in`, `str.strip`,
`str.lstrip` and whitespace splitting.  Each is embedded over `List Char`
with Python's semantics (for slicing: negative indices count from the end;
`find` returns -1 on a miss).
-/

/-- Python whitespace test for the characters `str.split()` / `str.strip()`
treat as separators (ASCII whitespace; enough for the texts involved). -/
def pyIsSpace (c : Char) : Bool :=
  c == ' ' || c == '\t' || c == '\n' || c == '\r' || c == '\x0b' || c == '\x0c'

/-- Python `str.lower` restricted to the alphabets occurring in the
keyword vocabularies: ASCII `A`-`Z` and Cyrillic `А`-`Я`, `Ё`.
All other characters are unchanged. -/
def char_lower (c : Char) : Char :=
  if 'A' ≤ c ∧ c ≤ 'Z' then Char.ofNat (c.toNat + 32)
  else if 'А' ≤ c ∧ c ≤ 'Я' then Char.ofNat (c.toNat + 32)
  else if c = 'Ё' then 'ё'
  else c

/-- Python `text.lower()`. -/
def str_lower (s : String) : String :=
  String.mk (s.data.map char_lower)

/-- Occurrence test: `hasSub needle hay = true` iff `needle` occurs as a
contiguous substring of `hay` (Python `needle in hay`). -/
def hasSub (needle : List Char) : List Char → Bool
  | [] => needle.isEmpty
  | c :: cs => needle.isPrefixOf (c :: cs) || hasSub needle cs

/-- Python substring operator `needle in hay` on strings. -/
def str_in (needle hay : String) : Bool :=
  hasSub needle.data hay.data

/-- Python `hay.find(needle)` starting the scan at absolute index `i`:
index of the first occurrence, `-1` if absent. -/
def pyFindAux (needle : List Char) : List Char → Nat → Int
  | [], i => if needle.isEmpty then (i : Int) else -1
  | c :: cs, i => if needle.isPrefixOf (c :: cs) then (i : Int) else pyFindAux needle cs (i + 1)

/-- Python `hay.find(needle)`. -/
def pyFind (needle hay : List Char) : Int :=
  pyFindAux needle hay 0

/-- Clamp a Python slice bound to an actual index: negative values count
from the end of the sequence, out-of-range values are clipped. -/
def pyClamp (len : Nat) (i : Int) : Nat :=
  if i < 0 then (i + len).toNat else min i.toNat len

/-- Python slice `l[a:b]`. -/
def pySlice (l : List Char) (a b : Int) : List Char :=
  (l.take (pyClamp l.length b)).drop (pyClamp l.length a)

/-- Python `s.split(sep)` for a non-empty separator, with fuel (the input
length bounds the number of scanning steps, so the fuel never runs out). -/
def pySplitAux (sep : List Char) : Nat → List Char → List Char → List (List Char)
  | _, acc, [] => [acc.reverse]
  | 0, acc, rest => [acc.reverse ++ rest]
  | fuel + 1, acc, c :: cs =>
    if sep.isPrefixOf (c :: cs) then
      acc.reverse :: pySplitAux sep fuel [] ((c :: cs).drop sep.length)
    else
      pySplitAux sep fuel (c :: acc) cs

/-- Python `s.split(sep)` (non-empty `sep`): the pieces between
non-overlapping occurrences of `sep`, scanned left to right. -/
def pySplit (sep s : List Char) : List (List Char) :=
  pySplitAux sep s.length [] s

/-- Collect the maximal whitespace-free words of a character list
(Python `str.split()` with no argument); `acc` holds the current word
reversed. -/
def pyWordsAux : List Char → List Char → List (List Char)
  | [], acc => if acc.isEmpty then [] else [acc.reverse]
  | c :: cs, acc =>
    if pyIsSpace c then
      if acc.isEmpty then pyWordsAux cs [] else acc.reverse :: pyWordsAux cs []
    else
      pyWordsAux cs (c :: acc)

/-- Python `" ".join(words)`. -/
def pyJoinSpace : List (List Char) → List Char
  | [] => []
  | [w] => w
  | w :: ws => w ++ ' ' :: pyJoinSpace ws

/-- Embeds `clean_text` (telegrambot.py line 110): replace `\n` and `\r`
by spaces, split on whitespace, re-join with single spaces. -/
def clean_text (s : String) : String :=
  String.mk (pyJoinSpace (pyWordsAux
    ((s.data.map (fun c => if c = '\n' then ' ' else c)).map
      (fun c => if c = '\r' then ' ' else c)) []))

/-- Python `content.strip()`: drop leading and trailing whitespace. -/
def pyStrip (s : String) : String :=
  String.mk (((s.data.dropWhile pyIsSpace).reverse.dropWhile pyIsSpace).reverse)

/-! ## Data model -/

/-- A candidate article record, the dict
`{"id", "title", "summary", "link", "source", "published_parsed"}` built
by the three source adapters.  `published_parsed` (a `datetime` in the
source, used only for ordering) is embedded as `Int` seconds. -/
structure Article where
  id : String
  title : String
  summary : String
  link : String
  source : String
  published_parsed : Int
deriving DecidableEq

/-- The `posted_articles` dict: article id to nullable posting timestamp,
in insertion order (CPython dicts preserve it). -/
abbrev Ledger := List (String × Option Int)

/-- Python `article_id in posted_articles` (dict key membership). -/
def ledger_contains (posted : Ledger) (i : String) : Bool :=
  posted.any (fun e => e.1 == i)

/-- RETENTION_DAYS (telegrambot.py line 43). -/
def RETENTION_DAYS : Int := 7

/-- Embeds `clean_old_posts` (lines 92-96): keep an entry iff its
timestamp is `None` or strictly greater than `now - RETENTION_DAYS*86400`.
`datetime.now().timestamp()` is the explicit parameter `now`. -/
def clean_old_posts (now : Int) (posted : Ledger) : Ledger :=
  posted.filter (fun e =>
    match e.2 with
    | none => true
    | some ts => decide (now - RETENTION_DAYS * 86400 < ts))

/-- Python dict assignment `posted_articles[i] = v`: overwrite in place if
the key exists, else append. -/
def dict_insert (posted : Ledger) (i : String) (v : Option Int) : Ledger :=
  if posted.any (fun e => e.1 == i) then
    posted.map (fun e => if e.1 == i then (i, v) else e)
  else
    posted ++ [(i, v)]

/-- Embeds `save_posted` (lines 98-100):
`posted_articles[article_id] = datetime.now().timestamp()`. -/
def save_posted (now : Int) (article_id : String) (posted : Ledger) : Ledger :=
  dict_insert posted article_id (some now)

/-! ## Keyword vocabularies (lines 50-73) -/

/-- REQUIRE_KEYWORDS (lines 50-62). -/
def REQUIRE_KEYWORDS : List String :=
  ["vpn", "прокси", "туннель", "proxy", "tunnel", "шифрование", "encrypt",
   "приватность", "privacy", "безопасность", "security", "защита данных",
   "интернет", "internet", "сеть", "network", "протокол", "protocol",
   "анонимность", "anonymous", "скрытие", "incognito", "скрытый", "hidden",
   "цензура", "блокировка", "blocking", "censorship", "restrict", "ограничение",
   "dns", "dpi", "фильтр", "filter", "обход", "bypass", "роскомнадзор", "ркн",
   "трафик", "traffic", "пакет", "packet", "соединение", "connection",
   "tor", "darknet", "wireguard", "openvpn", "shadowsocks", "обфускация",
   "нейросеть", "ии", "ai", "llm", "gpt", "claude", "chatgpt",
   "уязвимость", "vulnerability", "эксплойт", "exploit", "zero-day",
   "malware", "вредонос", "кибератака", "взлом", "security patch", "notepad++"]

/-- EXCLUDE_KEYWORDS (lines 64-71). -/
def EXCLUDE_KEYWORDS : List String :=
  ["теннис", "футбол", "хоккей", "баскетбол", "спорт", "матч", "команда",
   "игра", "геймплей", "gameplay", "dungeon", "playstation", "xbox", "steam",
   "кино", "фильм", "сериал", "музыка", "концерт", "актер", "режиссер",
   "coca-cola", "pepsi", "tesla", "акции", "биржа", "инвестор", "выручка",
   "выборы", "президент", "парламент", "закон", "болезнь", "вирус", "covid",
   "биткойн", "bitcoin", "крипто", "crypto", "блокчейн", "автомобиль", "машина"]

/-- RUSSIA_KEYWORDS (line 73). -/
def RUSSIA_KEYWORDS : List String :=
  ["россия", "рф", "российск", "москв", "ркн"]

/-! ## Relevance filter (lines 158-176) -/

/-- The score inside `check_require_keywords` (line 160):
`sum(1 for kw in REQUIRE_KEYWORDS if kw in text.lower())`. -/
def require_score (text : String) : Nat :=
  REQUIRE_KEYWORDS.countP (fun kw => str_in kw (str_lower text))

/-- Embeds `check_require_keywords` (lines 158-161): `score >= 2`. -/
def check_require_keywords (text : String) : Bool :=
  decide (2 ≤ require_score text)

/-- The lowered text `f"{e['title']} {e['summary']}".lower()`
(line 167). -/
def article_text (e : Article) : String :=
  str_lower (e.title ++ " " ++ e.summary)

/-- The exclusion test `any(kw in text for kw in EXCLUDE_KEYWORDS)`
(line 168), on the already lowered text. -/
def has_exclude (text : String) : Bool :=
  EXCLUDE_KEYWORDS.any (fun kw => str_in kw text)

/-- The locale test `any(kw in text for kw in RUSSIA_KEYWORDS)`
(line 171). -/
def has_russia (text : String) : Bool :=
  RUSSIA_KEYWORDS.any (fun kw => str_in kw text)

/-- The loop of `filter_articles` (lines 164-172): build
`(suitable_ru, suitable_world)` in input order, skipping candidates whose
id is in the ledger, whose text matches an exclude keyword, or whose text
matches fewer than two require keywords. -/
def classify (posted : Ledger) : List Article → List Article × List Article
  | [] => ([], [])
  | e :: rest =>
    let p := classify posted rest
    if ledger_contains posted e.id then p
    else if has_exclude (article_text e) then p
    else if !check_require_keywords (article_text e) then p
    else if has_russia (article_text e) then (e :: p.1, p.2)
    else (p.1, e :: p.2)

/-- Stable insertion (descending by `published_parsed`): the new element
goes in front of the first list element whose key is not greater, so
earlier input elements stay in front of equal-key later ones.  Together
with `sort_desc` this embeds the stable
`target.sort(key=lambda x: x["published_parsed"], reverse=True)`
of line 175. -/
def insertDesc (x : Article) : List Article → List Article
  | [] => [x]
  | y :: ys =>
    if y.published_parsed ≤ x.published_parsed then x :: y :: ys
    else y :: insertDesc x ys

/-- Stable sort, descending by `published_parsed` (line 175). -/
def sort_desc (l : List Article) : List Article :=
  l.foldr insertDesc []

/-- Embeds `filter_articles` (lines 163-176): classify, then
`target = suitable_ru if suitable_ru else suitable_world`, then the
stable descending sort. -/
def filter_articles (posted : Ledger) (articles : List Article) : List Article :=
  let p := classify posted articles
  let target := if p.1.isEmpty then p.2 else p.1
  sort_desc target

/-! ## Source adapters (lines 104-146)

The network fetch (`safe_get` / `feedparser.parse` / `re.finditer`) is a
side effect, so each adapter is embedded as a function of the fetched
data: `load_3dnews` of the html text returned by `safe_get` (`none` on
failure), `load_rss` of the parsed feed entries, and `load_vc_new` of the
list of regex matches (the two captured groups of each match).
`datetime.now()` is the explicit parameter `now`. -/

/-- One parsed feed entry as `load_rss` reads it: `entry.get("link", "")`,
`entry.get("title")`, `entry.get("summary")`, `entry.get("description")`,
each possibly absent. -/
structure RssEntry where
  link : Option String
  title : Option String
  summary : Option String
  description : Option String

/-- Python `a or b` for an optional string `a`: `b` when `a` is missing
or empty (falsy), else `a`. -/
def strOr (a : Option String) (b : String) : String :=
  match a with
  | none => b
  | some s => if s = "" then b else s

/-- The body of the `load_rss` loop (lines 130-135), over the first 30
entries. -/
def load_rss_loop (now : Int) (src : String) : List RssEntry → List Article
  | [] => []
  | entry :: rest =>
    let link := entry.link.getD ""
    let title := clean_text (entry.title.getD "")
    let summary := String.mk ((clean_text (strOr entry.summary (strOr entry.description ""))).data.take 500)
    if link ≠ "" ∧ title ≠ "" then
      { id := link, title := title, summary := summary, link := link,
        source := src, published_parsed := now } :: load_rss_loop now src rest
    else
      load_rss_loop now src rest

/-- Embeds `load_rss` (lines 127-136): records are kept only when both
`link` and `title` are non-empty (Python truthiness). -/
def load_rss (now : Int) (src : String) (entries : List RssEntry) : List Article :=
  load_rss_loop now src (entries.take 30)

/-- The body of the `load_3dnews` loop (lines 117-124): for each part of
the html after the anchor separator, take `href = part[:part.find(chr34)]`
and the text between the first `>` and the first `</a>`; no field of the
record is ever checked for emptiness.  The slicing cannot raise, so the
`except: continue` is dead. -/
def load_3dnews_loop (now : Int) : List (List Char) → List Article
  | [] => []
  | part :: rest =>
    let href := pySlice part 0 (pyFind ['"'] part)
    let chunk := pySlice part (pyFind ['>'] part + 1) (pyFind "</a>".data part)
    let title := clean_text (String.mk chunk)
    let link := "https://3dnews.ru/" ++ String.mk (href.dropWhile (fun c => c = '/'))
    { id := link, title := title, summary := "", link := link,
      source := "3DNews", published_parsed := now } :: load_3dnews_loop now rest

/-- Embeds `load_3dnews` (lines 113-125): `html.split('<a href="/')[1:15]`
and the per-part extraction; `html = none` models a failed `safe_get`, the
empty string is falsy (`if not html: return []`). -/
def load_3dnews (now : Int) (html : Option String) : List Article :=
  match html with
  | none => []
  | some h =>
    if h = "" then []
    else load_3dnews_loop now (((pySplit ("<a href=\"/".data) h.data).drop 1).take 14)

/-- Embeds `load_vc_new` (lines 138-146) over the list of regex matches
(group 1 and group 2 of each match of the anchor-span pattern); the loop
breaks once 15 records are collected, and every match produces a record,
so it processes exactly the first 15 matches. -/
def load_vc_new (now : Int) (ms : List (String × String)) : List Article :=
  (ms.take 15).map (fun m =>
    let link := "https://vc.ru" ++ String.mk (m.1.data.dropWhile (fun c => c = '/'))
    { id := link, title := clean_text m.2, summary := "", link := link,
      source := "VC.ru New", published_parsed := now })

/-! ## Rewriter (lines 180-202) -/

/-- Trailing-attribution test: `ends_with s suf = true` iff `suf` is a
suffix of `s`. -/
def ends_with (s suf : String) : Bool :=
  suf.data.reverse.isPrefixOf s.data.reverse

/-- Embeds `short_summary` (lines 180-202).  The OpenAI chat completion is
a side effect, so its result is the parameter `resp`: `none` models the
`except` path (API failure), `some content` the returned message text.
The footer is the FOOTER_TEXT environment value.  On success the code
strips the model text, appends the attribution and truncates to 1024
characters. -/
def short_summary (footer title summary link : String) (resp : Option String) : Option String :=
  match resp with
  | none => none
  | some content =>
    let core_text := pyStrip content
    let final_text := core_text ++ "\n\nИсточник: " ++ link ++ footer
    some (String.mk (final_text.data.take 1024))

/-! ## Orchestrator (lines 218-238)

The body of the `for art in candidates[:5]` loop is a single try/except:
the try block runs, in order, `generate_image`, `bot.send_photo` (with
an image) or `bot.send_message` (without), `os.remove(img)` when an
image was sent, `save_posted(art["id"])`, and `break`; the except
handler prints the error and continues with the next candidate.  A raise
at any point abandons the rest of the block but keeps its earlier
effects, so each fallible step gets its own oracle:

* `hasImg a` — whether `generate_image` returned a file for candidate
  `a` (`generate_image` catches its own errors and never raises);
* `send a` — whether the telegram send call succeeds: a `true` here is
  one successful publisher invocation, a message in the channel;
* `removeOk a` — whether `os.remove(img)` succeeds (consulted only when
  an image was sent);
* `saveOk a` — whether the ledger file write inside `save_posted`
  succeeds.  `save_posted` mutates the in-memory dict before writing the
  file, so on a failed write the new entry stays in the ledger while the
  `break` is never reached and the loop continues. -/

/-- Observable outcome of the `autopost` candidate loop: the final
in-memory ledger, the candidate whose try-block ran to the `break` (if
any), the number of successful send calls, and the candidates on which a
rewrite was attempted, in order. -/
structure LoopOut where
  ledger : Ledger
  published : Option Article
  pubSuccesses : Nat
  attempted : List Article

/-- The `for art in candidates[:5]` loop of `autopost` (lines 223-238).
`rw a` is the value of `short_summary` for candidate `a` (`none` on API
failure; `if not text: continue` also skips the empty string).  The
try-block branches: a failed send leaves the ledger untouched; a
successful send followed by a failed `os.remove` counts the publish but
skips `save_posted`; a reached `save_posted` records the id in the
in-memory dict, and only a successful file write reaches the `break` —
on a failed write the loop continues with the entry retained. -/
def autopost_loop (rw : Article → Option String)
    (hasImg send removeOk saveOk : Article → Bool) (now : Int)
    (posted : Ledger) : List Article → LoopOut
  | [] => ⟨posted, none, 0, []⟩
  | a :: rest =>
    match rw a with
    | none =>
      let r := autopost_loop rw hasImg send removeOk saveOk now posted rest
      ⟨r.ledger, r.published, r.pubSuccesses, a :: r.attempted⟩
    | some t =>
      if t = "" then
        let r := autopost_loop rw hasImg send removeOk saveOk now posted rest
        ⟨r.ledger, r.published, r.pubSuccesses, a :: r.attempted⟩
      else if !send a then
        let r := autopost_loop rw hasImg send removeOk saveOk now posted rest
        ⟨r.ledger, r.published, r.pubSuccesses, a :: r.attempted⟩
      else if hasImg a && !removeOk a then
        let r := autopost_loop rw hasImg send removeOk saveOk now posted rest
        ⟨r.ledger, r.published, r.pubSuccesses + 1, a :: r.attempted⟩
      else if saveOk a then
        ⟨save_posted now a.id posted, some a, 1, [a]⟩
      else
        let r := autopost_loop rw hasImg send removeOk saveOk now
          (save_posted now a.id posted) rest
        ⟨r.ledger, r.published, r.pubSuccesses + 1, a :: r.attempted⟩

/-- Embeds `autopost` (lines 218-238): prune the ledger, collect and
filter the candidates (the collected articles are the parameter
`articles`), then run the candidate loop on the first five survivors.
An empty survivor list returns immediately with no attempt, exactly as
the loop on `[]` does. -/
def autopost (rw : Article → Option String)
    (hasImg send removeOk saveOk : Article → Bool) (now : Int)
    (posted : Ledger) (articles : List Article) : LoopOut :=
  let cleaned := clean_old_posts now posted
  let candidates := filter_articles cleaned articles
  autopost_loop rw hasImg send removeOk saveOk now cleaned (candidates.take 5)

/-! ## Concrete values used by the witnesses -/

/-- A candidate whose text matches exactly the two require keywords
"vpn" and "openvpn". -/
def artVpn : Article :=
  ⟨"https://e/openvpn", "openvpn", "", "https://e/openvpn", "Xakep.ru", 3⟩

/-- A candidate that matches two require keywords and the exclude
keyword "биткойн". -/
def artExcl : Article :=
  ⟨"https://e/excl", "vpn proxy биткойн", "", "https://e/excl", "Xakep.ru", 1⟩

/-- A locale-bucket candidate: require keywords "vpn", "proxy" and the
locale keyword "россия". -/
def artRu : Article :=
  ⟨"https://e/ru", "vpn proxy россия", "", "https://e/ru", "3DNews", 0⟩

/-- A 1024-character model response, long enough that the truncation of
the rewritten post cuts the attribution off entirely. -/
def bigResp : String :=
  String.mk (List.replicate 1024 'x')

/-- A second general-bucket candidate, matching the require keywords
"wireguard" and "vpn"; ranked after `artVpn` by `published_parsed`. -/
def artWg : Article :=
  ⟨"https://e/wireguard", "wireguard vpn", "", "https://e/wireguard", "Xakep.ru", 1⟩

/-- A rewriter stub that always returns a fixed non-empty text. -/
def rwConst : Article → Option String := fun _ => some "text"

/-- A step oracle that always succeeds (also: an image is always
generated). -/
def alwaysTrue : Article → Bool := fun _ => true

/-- An image oracle for runs in which `generate_image` always fails, so
every post is text-only. -/
def imgNone : Article → Bool := fun _ => false

/-- A step oracle that fails exactly for the candidate whose id is `i`. -/
def failOn (i : String) : Article → Bool := fun a => a.id != i

/-- The survival condition of the `filter_articles` loop for one
candidate: not yet posted, no exclude keyword, at least two require
keywords. -/
def keeps (posted : Ledger) (e : Article) : Bool :=
  !ledger_contains posted e.id && !has_exclude (article_text e) &&
    check_require_keywords (article_text e)

/-- Specification of one run of the `autopost` candidate loop over the
candidate list `cs` starting from ledger `posted`.  Unconditionally: the
loop stops exactly at the first candidate whose send and ledger write
both succeed, every id the ledger gains is the id of an attempted
candidate whose send succeeded, and the attempted candidates are a
prefix of `cs`.  When the post-send steps (image removal and the ledger
file write) never fail, the stronger guarantees hold: at most one
successful send, and the ledger gains at most the published id. -/
def LoopSpec (rw : Article → Option String)
    (hasImg send removeOk saveOk : Article → Bool) (now : Int)
    (posted : Ledger) (cs : List Article) (r : LoopOut) : Prop :=
  (r.published = none → r.attempted = cs) ∧
  (∀ a, r.published = some a →
    send a = true ∧ saveOk a = true ∧ (∃ t, rw a = some t ∧ t ≠ "") ∧
    ∃ pre, r.attempted = pre ++ [a]) ∧
  r.attempted <+: cs ∧
  (∀ i, ledger_contains r.ledger i = true →
    ledger_contains posted i = true ∨
    ∃ a, a ∈ r.attempted ∧ a.id = i ∧ send a = true) ∧
  ((∀ a, removeOk a = true) → (∀ a, saveOk a = true) →
    r.pubSuccesses ≤ 1 ∧
    (r.published = none → r.ledger = posted ∧ r.pubSuccesses = 0) ∧
    (∀ a, r.published = some a →
      r.ledger = save_posted now a.id posted ∧ r.pubSuccesses = 1) ∧
    (∀ i, ledger_contains r.ledger i = true →
      ledger_contains posted i = true ∨ ∃ a, r.published = some a ∧ a.id = i))

/-! ## Lemmas about the stable descending sort -/

theorem insertDesc_perm (x : Article) (l : List Article) :
    (insertDesc x l).Perm (x :: l) := by
  induction l with
  | nil => exact List.Perm.refl _
  | cons y ys ih =>
    simp only [insertDesc]
    by_cases hle : y.published_parsed ≤ x.published_parsed
    · rw [if_pos hle]
    · rw [if_neg hle]
      exact (ih.cons y).trans (List.Perm.swap x y ys)

theorem sort_desc_perm (l : List Article) : (sort_desc l).Perm l := by
  induction l with
  | nil => exact List.Perm.refl _
  | cons x xs ih =>
    exact (insertDesc_perm x (sort_desc xs)).trans (ih.cons x)

theorem mem_sort_desc (a : Article) (l : List Article) :
    a ∈ sort_desc l ↔ a ∈ l :=
  (sort_desc_perm l).mem_iff

theorem sorted_insertDesc (x : Article) (l : List Article)
    (h : l.Pairwise (fun a b => b.published_parsed ≤ a.published_parsed)) :
    (insertDesc x l).Pairwise (fun a b => b.published_parsed ≤ a.published_parsed) := by
  induction l with
  | nil => simp [insertDesc]
  | cons y ys ih =>
    rw [List.pairwise_cons] at h
    obtain ⟨hy, hys⟩ := h
    simp only [insertDesc]
    by_cases hle : y.published_parsed ≤ x.published_parsed
    · rw [if_pos hle]
      refine List.Pairwise.cons ?_ (List.Pairwise.cons hy hys)
      intro z hz
      rcases List.mem_cons.mp hz with rfl | hz
      · exact hle
      · exact le_trans (hy z hz) hle
    · rw [if_neg hle]
      refine List.Pairwise.cons ?_ (ih hys)
      intro z hz
      rcases List.mem_cons.mp ((insertDesc_perm x ys).mem_iff.mp hz) with rfl | hz
      · exact le_of_lt (not_le.mp hle)
      · exact hy z hz

theorem sorted_sort_desc (l : List Article) :
    (sort_desc l).Pairwise (fun a b => b.published_parsed ≤ a.published_parsed) := by
  induction l with
  | nil => simp [sort_desc]
  | cons x xs ih => exact sorted_insertDesc x (sort_desc xs) ih

theorem filter_insertDesc (x : Article) (t : Int) (l : List Article) :
    (insertDesc x l).filter (fun a => a.published_parsed == t) =
      if x.published_parsed == t
      then x :: l.filter (fun a => a.published_parsed == t)
      else l.filter (fun a => a.published_parsed == t) := by
  induction l with
  | nil =>
    by_cases hx : x.published_parsed == t <;>
      simp [insertDesc, List.filter, hx]
  | cons y ys ih =>
    simp only [insertDesc]
    by_cases hle : y.published_parsed ≤ x.published_parsed
    · rw [if_pos hle]
      by_cases hx : x.published_parsed == t <;>
        simp [List.filter, hx]
    · rw [if_neg hle]
      have hlt : x.published_parsed < y.published_parsed := not_le.mp hle
      by_cases hy : y.published_parsed == t
      · have hyt : y.published_parsed = t := by simpa using hy
        have hx : ¬(x.published_parsed == t) := by
          simp only [beq_iff_eq]
          omega
        simp [List.filter, hy, hx, ih]
      · by_cases hx : x.published_parsed == t <;>
          simp [List.filter, hy, hx, ih]

theorem filter_sort_desc (t : Int) (l : List Article) :
    (sort_desc l).filter (fun a => a.published_parsed == t) =
      l.filter (fun a => a.published_parsed == t) := by
  induction l with
  | nil => rfl
  | cons x xs ih =>
    have hstep : sort_desc (x :: xs) = insertDesc x (sort_desc xs) := rfl
    rw [hstep, filter_insertDesc]
    by_cases hx : x.published_parsed == t <;> simp [List.filter, hx, ih]

/-! ## Lemmas about the classification loop -/

theorem classify_eq_filter (posted : Ledger) (l : List Article) :
    classify posted l =
      (l.filter (fun e => keeps posted e && has_russia (article_text e)),
       l.filter (fun e => keeps posted e && !has_russia (article_text e))) := by
  induction l with
  | nil => rfl
  | cons e rest ih =>
    simp only [classify, ih]
    by_cases h1 : ledger_contains posted e.id <;>
      by_cases h2 : has_exclude (article_text e) <;>
        by_cases h3 : check_require_keywords (article_text e) <;>
          by_cases h4 : has_russia (article_text e) <;>
            simp [keeps, h1, h2, h3, h4, List.filter]

theorem filter_articles_eq (posted : Ledger) (l : List Article) :
    filter_articles posted l =
      sort_desc (if (l.filter (fun e => keeps posted e && has_russia (article_text e))).isEmpty
        then l.filter (fun e => keeps posted e && !has_russia (article_text e))
        else l.filter (fun e => keeps posted e && has_russia (article_text e))) := by
  simp only [filter_articles, classify_eq_filter]

theorem mem_filter_articles (posted : Ledger) (l : List Article) (a : Article)
    (h : a ∈ filter_articles posted l) :
    a ∈ l ∧ keeps posted a = true := by
  rw [filter_articles_eq] at h
  rw [mem_sort_desc] at h
  by_cases hempty :
      (l.filter (fun e => keeps posted e && has_russia (article_text e))).isEmpty
  · rw [if_pos hempty, List.mem_filter] at h
    exact ⟨h.1, (Bool.and_eq_true _ _ |>.mp h.2).1⟩
  · rw [if_neg hempty, List.mem_filter] at h
    exact ⟨h.1, (Bool.and_eq_true _ _ |>.mp h.2).1⟩

/-! ## Claim theorems about the relevance filter -/

/-- C1: for every ledger state and candidate batch, a candidate whose id
is a key of the ledger never appears in the output of `filter_articles`,
whatever its title and summary are. -/
theorem filter_articles_dedup (posted : Ledger) (articles : List Article) (a : Article)
    (h : ledger_contains posted a.id = true) :
    a ∉ filter_articles posted articles := by
  intro hmem
  have hk := (mem_filter_articles posted articles a hmem).2
  simp [keeps, h] at hk

/-- C1 witness: a candidate whose id has a ledger entry is dropped even
though its text passes every keyword test. -/
theorem filter_articles_dedup_witness :
    artVpn ∉ filter_articles [("https://e/openvpn", none)] [artVpn] :=
  filter_articles_dedup [("https://e/openvpn", none)] [artVpn] artVpn (by decide)

/-- C3: for a candidate that is not in the ledger and matches no exclude
keyword, a require score of exactly 1 means it never appears in the
output, and a require score of exactly 2 means the filter keeps it (run
on the batch consisting of that candidate). -/
theorem require_threshold (posted : Ledger) (articles : List Article) (a : Article)
    (h1 : ledger_contains posted a.id = false)
    (h2 : has_exclude (article_text a) = false) :
    (require_score (article_text a) = 1 → a ∉ filter_articles posted articles) ∧
    (require_score (article_text a) = 2 → filter_articles posted [a] = [a]) := by
  constructor
  · intro hsc hmem
    have hk := (mem_filter_articles posted articles a hmem).2
    have hc : check_require_keywords (article_text a) = false := by
      simp [check_require_keywords, hsc]
    simp [keeps, hc] at hk
  · intro hsc
    have hc : check_require_keywords (article_text a) = true := by
      simp [check_require_keywords, hsc]
    by_cases hr : has_russia (article_text a) <;>
      simp [filter_articles, classify, h1, h2, hc, hr, sort_desc, insertDesc]

/-- C3 witness: the candidate titled "openvpn" matches exactly the two
require keywords "vpn" and "openvpn" and is kept. -/
theorem require_threshold_witness :
    filter_articles [] [artVpn] = [artVpn] :=
  (require_threshold [] [artVpn] artVpn (by decide) (by decide)).2 (by decide)

/-- C4: a candidate whose lowered text contains any exclude keyword never
appears in the output of `filter_articles`, no matter how many require
keywords it also matches. -/
theorem exclude_dominance (posted : Ledger) (articles : List Article) (a : Article)
    (h : has_exclude (article_text a) = true) :
    a ∉ filter_articles posted articles := by
  intro hmem
  have hk := (mem_filter_articles posted articles a hmem).2
  simp [keeps, h] at hk

/-- C4 witness: a candidate matching two require keywords and the exclude
keyword "биткойн" is dropped. -/
theorem exclude_dominance_witness :
    2 ≤ require_score (article_text artExcl) ∧
      artExcl ∉ filter_articles [] [artExcl] :=
  ⟨by decide, exclude_dominance [] [artExcl] artExcl (by decide)⟩

/-- C5: if the locale (suitable_ru) bucket is non-empty then the output
of `filter_articles` consists of locale candidates only — every output
element matches a locale keyword, no element of the general
(suitable_world) bucket appears, and the output is a permutation of the
locale bucket; if the locale bucket is empty the output is exactly the
sorted general bucket. -/
theorem locale_dominance (posted : Ledger) (l : List Article) :
    ((classify posted l).1 ≠ [] →
      (∀ a ∈ filter_articles posted l, has_russia (article_text a) = true) ∧
      (∀ a ∈ (classify posted l).2, a ∉ filter_articles posted l) ∧
      (filter_articles posted l).Perm (classify posted l).1) ∧
    ((classify posted l).1 = [] →
      filter_articles posted l = sort_desc (classify posted l).2 ∧
      (filter_articles posted l).Perm (classify posted l).2) := by
  have hunfold : filter_articles posted l =
      sort_desc (if (classify posted l).1.isEmpty
        then (classify posted l).2 else (classify posted l).1) := rfl
  constructor
  · intro hne
    have hempty : (classify posted l).1.isEmpty = false := by
      cases hcl : (classify posted l).1 with
      | nil => exact absurd hcl hne
      | cons x xs => simp [hcl]
    rw [hempty] at hunfold
    simp only [Bool.false_eq_true, if_false] at hunfold
    refine ⟨?_, ?_, ?_⟩
    · intro a ha
      rw [hunfold, mem_sort_desc] at ha
      rw [classify_eq_filter] at ha
      simp only [List.mem_filter, Bool.and_eq_true] at ha
      exact ha.2.2
    · intro a ha hmem
      rw [hunfold, mem_sort_desc] at hmem
      rw [classify_eq_filter] at ha hmem
      simp only [List.mem_filter, Bool.and_eq_true, Bool.not_eq_true'] at ha hmem
      rw [ha.2.2] at hmem
      exact absurd hmem.2.2 (by simp)
    · rw [hunfold]
      exact sort_desc_perm _
  · intro heq
    have hempty : (classify posted l).1.isEmpty = true := by simp [heq]
    rw [hempty] at hunfold
    simp only [if_true] at hunfold
    exact ⟨hunfold, hunfold ▸ sort_desc_perm _⟩

/-- C5 witness: in a batch with one locale candidate and one general
candidate, the general candidate is absent from the output. -/
theorem locale_dominance_witness :
    artVpn ∉ filter_articles [] [artRu, artVpn] :=
  ((locale_dominance [] [artRu, artVpn]).1 (by decide)).2.1 artVpn (by decide)

/-- C6: the output of `filter_articles` is sorted by `published_parsed`
descending, and for every timestamp the output candidates carrying it
appear in the same relative order as in the input batch (stable
tie-break). -/
theorem ranking_sorted_stable (posted : Ledger) (l : List Article) :
    (filter_articles posted l).Pairwise
      (fun a b => b.published_parsed ≤ a.published_parsed) ∧
    ∀ t : Int,
      ((filter_articles posted l).filter (fun a => a.published_parsed == t)).Sublist
        (l.filter (fun a => a.published_parsed == t)) := by
  rw [filter_articles_eq]
  refine ⟨sorted_sort_desc _, ?_⟩
  intro t
  rw [filter_sort_desc]
  by_cases hru :
      (l.filter (fun e => keeps posted e && has_russia (article_text e))).isEmpty
  · rw [if_pos hru]
    exact (List.filter_sublist l).filter _
  · rw [if_neg hru]
    exact (List.filter_sublist l).filter _

/-- C6 witness: the sortedness conjunct at a concrete two-candidate
batch. -/
theorem ranking_sorted_stable_witness :
    (filter_articles [] [artRu, artVpn]).Pairwise
      (fun a b => b.published_parsed ≤ a.published_parsed) :=
  (ranking_sorted_stable [] [artRu, artVpn]).1

/-! ## Claim theorems about ledger retention -/

/-- C7 counterexample: an entry whose timestamp equals the cutoff
`now - 7*86400` exactly is not strictly older than the cutoff, yet
`clean_old_posts` removes it (the code keeps only `ts > cutoff`). -/
theorem clean_old_posts_boundary_cex :
    clean_old_posts 604800 [("a", some 0)] = [] ∧ ¬((0 : Int) < 604800 - 7 * 86400) := by
  decide

/-- C7 amended: `clean_old_posts` keeps exactly the entries whose
timestamp is null or strictly greater than `now - RETENTION_DAYS*86400`
(so entries at least 7 days old, the cutoff instant included, are
removed), retained entries keep their timestamps, an 8-day-old entry is
pruned, a 6-day-old entry is kept, and a null-timestamp entry is kept. -/
theorem clean_old_posts_retention (now : Int) (L : Ledger) (i : String) (ts : Option Int) :
    ((i, ts) ∈ clean_old_posts now L ↔
      (i, ts) ∈ L ∧
        (ts = none ∨ ∃ v, ts = some v ∧ now - RETENTION_DAYS * 86400 < v)) ∧
    ("e8", some (now - 8 * 86400)) ∉
      clean_old_posts now [("e8", some (now - 8 * 86400))] ∧
    ("e6", some (now - 6 * 86400)) ∈
      clean_old_posts now [("e6", some (now - 6 * 86400))] ∧
    ("en", (none : Option Int)) ∈ clean_old_posts now [("en", (none : Option Int))] := by
  refine ⟨?_, ?_, ?_, ?_⟩
  · unfold clean_old_posts
    rw [List.mem_filter]
    cases ts with
    | none => simp
    | some v => simp
  · intro h
    rw [clean_old_posts, List.mem_filter] at h
    have h2 := h.2
    simp only [RETENTION_DAYS, decide_eq_true_eq] at h2
    omega
  · rw [clean_old_posts, List.mem_filter]
    refine ⟨List.mem_singleton.mpr rfl, ?_⟩
    simp only [RETENTION_DAYS, decide_eq_true_eq]
    omega
  · simp [clean_old_posts]

/-- C7 witness: the null-timestamp conjunct at a concrete ledger. -/
theorem clean_old_posts_retention_witness :
    ("en", (none : Option Int)) ∈ clean_old_posts 0 [("en", (none : Option Int))] :=
  (clean_old_posts_retention 0 [] "k" none).2.2.2

/-! ## Claim theorem about require-keyword overlap -/

/-- C10: the single word "openvpn" satisfies `check_require_keywords`,
because the distinct require keywords "vpn" and "openvpn" both occur in
it as substrings; a single occurrence of a single word reaches the
two-keyword threshold. -/
theorem require_overlap_single_word :
    check_require_keywords "openvpn" = true ∧
    require_score "openvpn" = 2 ∧
    "openvpn".data.all (fun c => !pyIsSpace c) = true := by
  decide

/-! ## Lemmas about the autopost candidate loop -/

theorem ledger_contains_save_posted (now : Int) (j i : String) (L : Ledger)
    (h : ledger_contains (save_posted now j L) i = true) :
    i = j ∨ ledger_contains L i = true := by
  unfold save_posted dict_insert at h
  by_cases hp : L.any (fun e => e.1 == j)
  · rw [if_pos hp] at h
    unfold ledger_contains at h ⊢
    rw [List.any_map] at h
    obtain ⟨e, he, hpe⟩ := List.any_eq_true.mp h
    simp only [Function.comp] at hpe
    by_cases hej : e.1 == j
    · rw [if_pos hej] at hpe
      left
      exact (eq_of_beq hpe).symm
    · rw [if_neg hej] at hpe
      right
      exact List.any_eq_true.mpr ⟨e, he, hpe⟩
  · rw [if_neg hp] at h
    unfold ledger_contains at h ⊢
    rw [List.any_append] at h
    rcases Bool.or_eq_true _ _ |>.mp h with h1 | h2
    · right
      exact h1
    · left
      simp only [List.any_cons, List.any_nil, Bool.or_false] at h2
      exact (eq_of_beq h2).symm

theorem loop_skip_step (rw : Article → Option String)
    (hasImg send removeOk saveOk : Article → Bool) (now : Int) (posted : Ledger)
    (a : Article) (rest : List Article) (r : LoopOut)
    (ih : LoopSpec rw hasImg send removeOk saveOk now posted rest r) :
    LoopSpec rw hasImg send removeOk saveOk now posted (a :: rest)
      ⟨r.ledger, r.published, r.pubSuccesses, a :: r.attempted⟩ := by
  obtain ⟨ih1, ih2, ih3, ih4, ih5⟩ := ih
  refine ⟨?_, ?_, ?_, ?_, ?_⟩
  · intro h
    show a :: r.attempted = a :: rest
    rw [ih1 h]
  · intro b hb
    obtain ⟨e1, e2, e3, pre, e5⟩ := ih2 b hb
    exact ⟨e1, e2, e3, a :: pre, by simp [e5]⟩
  · obtain ⟨t, ht⟩ := ih3
    exact ⟨t, by simp [ht]⟩
  · intro i hi
    rcases ih4 i hi with h | ⟨b, hb, hid, hsend⟩
    · exact Or.inl h
    · exact Or.inr ⟨b, List.mem_cons_of_mem a hb, hid, hsend⟩
  · intro hR hS
    obtain ⟨c1, c2, c3, c4⟩ := ih5 hR hS
    refine ⟨c1, ?_, c3, c4⟩
    intro h
    exact c2 h

theorem loop_removefail_step (rw : Article → Option String)
    (hasImg send removeOk saveOk : Article → Bool) (now : Int) (posted : Ledger)
    (a : Article) (rest : List Article) (r : LoopOut)
    (hrm : removeOk a = false)
    (ih : LoopSpec rw hasImg send removeOk saveOk now posted rest r) :
    LoopSpec rw hasImg send removeOk saveOk now posted (a :: rest)
      ⟨r.ledger, r.published, r.pubSuccesses + 1, a :: r.attempted⟩ := by
  obtain ⟨ih1, ih2, ih3, ih4, _⟩ := ih
  refine ⟨?_, ?_, ?_, ?_, ?_⟩
  · intro h
    show a :: r.attempted = a :: rest
    rw [ih1 h]
  · intro b hb
    obtain ⟨e1, e2, e3, pre, e5⟩ := ih2 b hb
    exact ⟨e1, e2, e3, a :: pre, by simp [e5]⟩
  · obtain ⟨t, ht⟩ := ih3
    exact ⟨t, by simp [ht]⟩
  · intro i hi
    rcases ih4 i hi with h | ⟨b, hb, hid, hsend⟩
    · exact Or.inl h
    · exact Or.inr ⟨b, List.mem_cons_of_mem a hb, hid, hsend⟩
  · intro hR _
    exact absurd (hR a) (by simp [hrm])

theorem loop_savefail_step (rw : Article → Option String)
    (hasImg send removeOk saveOk : Article → Bool) (now : Int) (posted : Ledger)
    (a : Article) (rest : List Article) (r : LoopOut)
    (hsv : saveOk a = false) (hsend : send a = true)
    (ih : LoopSpec rw hasImg send removeOk saveOk now
      (save_posted now a.id posted) rest r) :
    LoopSpec rw hasImg send removeOk saveOk now posted (a :: rest)
      ⟨r.ledger, r.published, r.pubSuccesses + 1, a :: r.attempted⟩ := by
  obtain ⟨ih1, ih2, ih3, ih4, _⟩ := ih
  refine ⟨?_, ?_, ?_, ?_, ?_⟩
  · intro h
    show a :: r.attempted = a :: rest
    rw [ih1 h]
  · intro b hb
    obtain ⟨e1, e2, e3, pre, e5⟩ := ih2 b hb
    exact ⟨e1, e2, e3, a :: pre, by simp [e5]⟩
  · obtain ⟨t, ht⟩ := ih3
    exact ⟨t, by simp [ht]⟩
  · intro i hi
    rcases ih4 i hi with h | ⟨b, hb, hid, hsendb⟩
    · rcases ledger_contains_save_posted now a.id i posted h with h1 | h2
      · exact Or.inr ⟨a, List.mem_cons_self a _, h1.symm, hsend⟩
      · exact Or.inl h2
    · exact Or.inr ⟨b, List.mem_cons_of_mem a hb, hid, hsendb⟩
  · intro _ hS
    exact absurd (hS a) (by simp [hsv])

theorem loop_publish_step (rw : Article → Option String)
    (hasImg send removeOk saveOk : Article → Bool) (now : Int) (posted : Ledger)
    (a : Article) (rest : List Article) (t : String)
    (hrw : rw a = some t) (ht : t ≠ "") (hsend : send a = true)
    (hsv : saveOk a = true) :
    LoopSpec rw hasImg send removeOk saveOk now posted (a :: rest)
      ⟨save_posted now a.id posted, some a, 1, [a]⟩ := by
  refine ⟨?_, ?_, ?_, ?_, ?_⟩
  · intro h
    exact absurd h (by simp)
  · intro b hb
    obtain rfl : a = b := by simpa using hb
    exact ⟨hsend, hsv, ⟨t, hrw, ht⟩, [], rfl⟩
  · exact ⟨rest, rfl⟩
  · intro i hi
    rcases ledger_contains_save_posted now a.id i posted hi with h1 | h2
    · exact Or.inr ⟨a, List.mem_cons_self a _, h1.symm, hsend⟩
    · exact Or.inl h2
  · intro _ _
    refine ⟨le_refl 1, ?_, ?_, ?_⟩
    · intro h
      exact absurd h (by simp)
    · intro b hb
      obtain rfl : a = b := by simpa using hb
      exact ⟨rfl, rfl⟩
    · intro i hi
      rcases ledger_contains_save_posted now a.id i posted hi with h1 | h2
      · exact Or.inr ⟨a, rfl, h1.symm⟩
      · exact Or.inl h2

theorem autopost_loop_spec (rw : Article → Option String)
    (hasImg send removeOk saveOk : Article → Bool) (now : Int) :
    ∀ (cs : List Article) (posted : Ledger),
      LoopSpec rw hasImg send removeOk saveOk now posted cs
        (autopost_loop rw hasImg send removeOk saveOk now posted cs) := by
  intro cs
  induction cs with
  | nil =>
    intro posted
    refine ⟨fun _ => rfl, ?_, ⟨[], rfl⟩, ?_, ?_⟩
    · intro b hb
      exact absurd hb (by simp [autopost_loop])
    · intro i hi
      exact Or.inl hi
    · intro _ _
      refine ⟨by simp [autopost_loop], fun _ => ⟨rfl, rfl⟩, ?_, ?_⟩
      · intro b hb
        exact absurd hb (by simp [autopost_loop])
      · intro i hi
        exact Or.inl hi
  | cons a rest ih =>
    intro posted
    cases hrw : rw a with
    | none =>
      have hstep : autopost_loop rw hasImg send removeOk saveOk now posted (a :: rest) =
          ⟨(autopost_loop rw hasImg send removeOk saveOk now posted rest).ledger,
           (autopost_loop rw hasImg send removeOk saveOk now posted rest).published,
           (autopost_loop rw hasImg send removeOk saveOk now posted rest).pubSuccesses,
           a :: (autopost_loop rw hasImg send removeOk saveOk now posted rest).attempted⟩ := by
        simp [autopost_loop, hrw]
      rw [hstep]
      exact loop_skip_step rw hasImg send removeOk saveOk now posted a rest _ (ih posted)
    | some t =>
      by_cases ht : t = ""
      · have hstep : autopost_loop rw hasImg send removeOk saveOk now posted (a :: rest) =
            ⟨(autopost_loop rw hasImg send removeOk saveOk now posted rest).ledger,
             (autopost_loop rw hasImg send removeOk saveOk now posted rest).published,
             (autopost_loop rw hasImg send removeOk saveOk now posted rest).pubSuccesses,
             a :: (autopost_loop rw hasImg send removeOk saveOk now posted rest).attempted⟩ := by
          simp [autopost_loop, hrw, ht]
        rw [hstep]
        exact loop_skip_step rw hasImg send removeOk saveOk now posted a rest _ (ih posted)
      · by_cases hsend : send a
        · by_cases himg : hasImg a && !removeOk a
          · have hrm : removeOk a = false := by
              rcases Bool.and_eq_true _ _ |>.mp himg with ⟨_, h2⟩
              simpa using h2
            have hstep : autopost_loop rw hasImg send removeOk saveOk now posted (a :: rest) =
                ⟨(autopost_loop rw hasImg send removeOk saveOk now posted rest).ledger,
                 (autopost_loop rw hasImg send removeOk saveOk now posted rest).published,
                 (autopost_loop rw hasImg send removeOk saveOk now posted rest).pubSuccesses + 1,
                 a :: (autopost_loop rw hasImg send removeOk saveOk now posted rest).attempted⟩ := by
              simp [autopost_loop, hrw, ht, hsend, himg]
            rw [hstep]
            exact loop_removefail_step rw hasImg send removeOk saveOk now posted a rest _
              hrm (ih posted)
          · by_cases hsv : saveOk a
            · have hstep : autopost_loop rw hasImg send removeOk saveOk now posted (a :: rest) =
                  ⟨save_posted now a.id posted, some a, 1, [a]⟩ := by
                simp [autopost_loop, hrw, ht, hsend, himg, hsv]
              rw [hstep]
              exact loop_publish_step rw hasImg send removeOk saveOk now posted a rest t
                hrw ht hsend hsv
            · have hsv' : saveOk a = false := by
                simpa using hsv
              have hstep : autopost_loop rw hasImg send removeOk saveOk now posted (a :: rest) =
                  ⟨(autopost_loop rw hasImg send removeOk saveOk now
                      (save_posted now a.id posted) rest).ledger,
                   (autopost_loop rw hasImg send removeOk saveOk now
                      (save_posted now a.id posted) rest).published,
                   (autopost_loop rw hasImg send removeOk saveOk now
                      (save_posted now a.id posted) rest).pubSuccesses + 1,
                   a :: (autopost_loop rw hasImg send removeOk saveOk now
                      (save_posted now a.id posted) rest).attempted⟩ := by
                simp [autopost_loop, hrw, ht, hsend, himg, hsv']
              rw [hstep]
              exact loop_savefail_step rw hasImg send removeOk saveOk now posted a rest _
                hsv' hsend (ih (save_posted now a.id posted))
        · have hsend' : send a = false := by
            simpa using hsend
          have hstep : autopost_loop rw hasImg send removeOk saveOk now posted (a :: rest) =
              ⟨(autopost_loop rw hasImg send removeOk saveOk now posted rest).ledger,
               (autopost_loop rw hasImg send removeOk saveOk now posted rest).published,
               (autopost_loop rw hasImg send removeOk saveOk now posted rest).pubSuccesses,
               a :: (autopost_loop rw hasImg send removeOk saveOk now posted rest).attempted⟩ := by
            simp [autopost_loop, hrw, ht, hsend']
          rw [hstep]
          exact loop_skip_step rw hasImg send removeOk saveOk now posted a rest _ (ih posted)

/-- C2 counterexample: the claim fails on the source try/except
structure.  First run (image cleanup fails): the first candidate is
sent, then `os.remove` raises, so `save_posted` and `break` are skipped
and the second candidate is also sent — two successful publisher
invocations in one run.  Second run (ledger file write fails): the first
candidate is sent and recorded in the in-memory dict, the file write
raises before the `break`, and the second candidate is also sent and
recorded — the ledger gains two new ids, among them the id of a
candidate whose publish attempt failed. -/
theorem autopost_double_publish_cex :
    (autopost rwConst alwaysTrue alwaysTrue (failOn "https://e/openvpn") alwaysTrue
        0 [] [artVpn, artWg]).pubSuccesses = 2 ∧
    (autopost rwConst imgNone alwaysTrue alwaysTrue (failOn "https://e/openvpn")
        0 [] [artVpn, artWg]).ledger =
      [("https://e/openvpn", some 0), ("https://e/wireguard", some 0)] ∧
    (autopost rwConst imgNone alwaysTrue alwaysTrue (failOn "https://e/openvpn")
        0 [] [artVpn, artWg]).published = some artWg := by
  decide

/-- C2 amended: in one run of `autopost` the loop stops exactly at the
first candidate whose send and ledger file write both succeed, and after
it no further candidates are attempted; the attempted candidates are a
prefix of the first five survivors; every id the ledger gains is the id
of an attempted candidate whose send succeeded, so a candidate whose
rewrite or send fails is never recorded and never the published one; and
when the steps after a successful send never fail (image removal and the
ledger file write always succeed) the original guarantees hold: the
publisher succeeds at most once per run and the ledger gains at most one
new entry, the published candidate's id.  When a post-send step fails,
the loop can publish again (see the counterexample). -/
theorem autopost_at_most_one_publish (rw : Article → Option String)
    (hasImg send removeOk saveOk : Article → Bool) (now : Int)
    (posted : Ledger) (articles : List Article) :
    ((autopost rw hasImg send removeOk saveOk now posted articles).published = none →
      (autopost rw hasImg send removeOk saveOk now posted articles).attempted =
        (filter_articles (clean_old_posts now posted) articles).take 5) ∧
    (∀ a, (autopost rw hasImg send removeOk saveOk now posted articles).published = some a →
      send a = true ∧ saveOk a = true ∧ (∃ t, rw a = some t ∧ t ≠ "") ∧
      ∃ pre, (autopost rw hasImg send removeOk saveOk now posted articles).attempted =
        pre ++ [a]) ∧
    (autopost rw hasImg send removeOk saveOk now posted articles).attempted <+:
      (filter_articles (clean_old_posts now posted) articles).take 5 ∧
    (∀ i, ledger_contains
        (autopost rw hasImg send removeOk saveOk now posted articles).ledger i = true →
      ledger_contains (clean_old_posts now posted) i = true ∨
      ∃ a, a ∈ (autopost rw hasImg send removeOk saveOk now posted articles).attempted ∧
        a.id = i ∧ send a = true) ∧
    (∀ a, rw a = none ∨ rw a = some "" ∨ send a = false →
      (autopost rw hasImg send removeOk saveOk now posted articles).published ≠ some a) ∧
    ((∀ a, removeOk a = true) → (∀ a, saveOk a = true) →
      (autopost rw hasImg send removeOk saveOk now posted articles).pubSuccesses ≤ 1 ∧
      ((autopost rw hasImg send removeOk saveOk now posted articles).published = none →
        (autopost rw hasImg send removeOk saveOk now posted articles).ledger =
          clean_old_posts now posted) ∧
      (∀ a, (autopost rw hasImg send removeOk saveOk now posted articles).published = some a →
        (autopost rw hasImg send removeOk saveOk now posted articles).ledger =
          save_posted now a.id (clean_old_posts now posted) ∧
        (autopost rw hasImg send removeOk saveOk now posted articles).pubSuccesses = 1) ∧
      (∀ i, ledger_contains
          (autopost rw hasImg send removeOk saveOk now posted articles).ledger i = true →
        ledger_contains (clean_old_posts now posted) i = true ∨
        ∃ a, (autopost rw hasImg send removeOk saveOk now posted articles).published =
          some a ∧ a.id = i)) := by
  have hspec := autopost_loop_spec rw hasImg send removeOk saveOk now
    ((filter_articles (clean_old_posts now posted) articles).take 5)
    (clean_old_posts now posted)
  have hdef : autopost rw hasImg send removeOk saveOk now posted articles =
      autopost_loop rw hasImg send removeOk saveOk now (clean_old_posts now posted)
        ((filter_articles (clean_old_posts now posted) articles).take 5) := rfl
  rw [hdef]
  obtain ⟨h1, h2, h3, h4, h5⟩ := hspec
  refine ⟨h1, h2, h3, h4, ?_, ?_⟩
  · intro a hfail hsome
    obtain ⟨hsend, _, ⟨t, hrw, ht⟩, _⟩ := h2 a hsome
    rcases hfail with hf | hf | hf
    · rw [hf] at hrw
      exact Option.noConfusion hrw
    · rw [hf] at hrw
      exact ht (Option.some.injEq _ _ ▸ hrw.symm ▸ rfl)
    · rw [hf] at hsend
      exact Bool.noConfusion hsend
  · intro hR hS
    obtain ⟨c1, c2, c3, c4⟩ := h5 hR hS
    exact ⟨c1, fun h => (c2 h).1, fun a ha => (c3 a ha), c4⟩

/-- C2 witness: the conditional at-most-one-publish bound at a concrete
run in which every post-send step succeeds. -/
theorem autopost_at_most_one_publish_witness :
    (autopost rwConst imgNone alwaysTrue alwaysTrue alwaysTrue
      0 [] [artVpn]).pubSuccesses ≤ 1 :=
  ((autopost_at_most_one_publish rwConst imgNone alwaysTrue alwaysTrue alwaysTrue
    0 [] [artVpn]).2.2.2.2.2 (fun _ => rfl) (fun _ => rfl)).1


/-! ## Claim theorems about the source adapters -/

theorem prefixed_ne_empty (p s : String) (hp : p.data ≠ []) : p ++ s ≠ "" := by
  intro h
  apply hp
  have hd : (p ++ s).data = [] := by rw [h]
  rw [String.data_append] at hd
  exact (List.append_eq_nil.mp hd).1

theorem load_rss_loop_fields (now : Int) (src : String) :
    ∀ es : List RssEntry, ∀ a ∈ load_rss_loop now src es, a.id ≠ "" ∧ a.title ≠ "" := by
  intro es
  induction es with
  | nil => simp [load_rss_loop]
  | cons e rest ih =>
    intro a ha
    simp only [load_rss_loop] at ha
    split at ha
    · rename_i hcond
      rcases List.mem_cons.mp ha with rfl | ha'
      · exact ⟨hcond.1, hcond.2⟩
      · exact ih a ha'
    · exact ih a ha

theorem load_3dnews_loop_id (now : Int) :
    ∀ parts : List (List Char), ∀ a ∈ load_3dnews_loop now parts, a.id ≠ "" := by
  intro parts
  induction parts with
  | nil => simp [load_3dnews_loop]
  | cons part rest ih =>
    intro a ha
    simp only [load_3dnews_loop] at ha
    rcases List.mem_cons.mp ha with rfl | ha'
    · exact prefixed_ne_empty _ _ (by decide)
    · exact ih a ha'

/-- C8 counterexample: on a well-formed anchor with empty element text,
`load_3dnews` emits a record whose title is the empty string — no check
discards it before `filter_articles` is applied. -/
theorem load_3dnews_empty_title_cex :
    (load_3dnews 0 (some "<a href=\"/x\"></a>")).map (fun a => a.title) = [""] := by
  decide

/-- C8 amended: every record `load_rss` emits has a non-empty id and a
non-empty title (its guard discards the rest), and every record of each
of the three adapters has a non-empty id; but `load_3dnews` and
`load_vc_new` never check the title, which can be empty (see the
counterexample). -/
theorem adapters_nonempty_id_title :
    (∀ (now : Int) (src : String) (entries : List RssEntry),
      ∀ a ∈ load_rss now src entries, a.id ≠ "" ∧ a.title ≠ "") ∧
    (∀ (now : Int) (html : Option String),
      ∀ a ∈ load_3dnews now html, a.id ≠ "") ∧
    (∀ (now : Int) (ms : List (String × String)),
      ∀ a ∈ load_vc_new now ms, a.id ≠ "") := by
  refine ⟨?_, ?_, ?_⟩
  · intro now src entries a ha
    exact load_rss_loop_fields now src (entries.take 30) a ha
  · intro now html a ha
    cases html with
    | none => exact absurd ha (by simp [load_3dnews])
    | some h =>
      by_cases hh : h = ""
      · rw [load_3dnews, if_pos hh] at ha
        exact absurd ha (by simp)
      · rw [load_3dnews, if_neg hh] at ha
        exact load_3dnews_loop_id now _ a ha
  · intro now ms a ha
    simp only [load_vc_new, List.mem_map] at ha
    obtain ⟨m, _, rfl⟩ := ha
    exact prefixed_ne_empty _ _ (by decide)

/-- C8 witness: a concrete feed entry with link "L" and title "T" yields
a record with non-empty id and title. -/
theorem adapters_nonempty_id_title_witness :
    (Article.mk "L" "T" "" "L" "S" 0).id ≠ "" ∧
      (Article.mk "L" "T" "" "L" "S" 0).title ≠ "" :=
  adapters_nonempty_id_title.1 0 "S" [⟨some "L", some "T", none, none⟩]
    (Article.mk "L" "T" "" "L" "S" 0) (by decide)

/-! ## Claim theorems about the rewriter -/

theorem isPrefixOf_self_append (l m : List Char) : l.isPrefixOf (l ++ m) = true := by
  induction l with
  | nil => simp [List.isPrefixOf]
  | cons c cs ih => simp [List.isPrefixOf, ih]

/-- C9 counterexample: for a 1024-character model response the truncation
`final_text[:1024]` cuts the attribution off entirely: the returned post
neither ends with nor even contains the attribution line built from the
link. -/
theorem short_summary_truncation_cex :
    (short_summary "" "t" "s" "L" (some bigResp)).map
        (fun s => ends_with s "\n\nИсточник: L") = some false ∧
    (short_summary "" "t" "s" "L" (some bigResp)).map
        (fun s => str_in "Источник" s) = some false := by
  constructor
  · rfl
  · rfl

/-- C9 amended: `short_summary` returns the failure signal exactly on
model failure; otherwise it returns a string of at most 1024 characters
which is the stripped model text plus the attribution line built from
the link and the footer, truncated to 1024 characters — so it ends with
the attribution line whenever the combined text fits in 1024 characters
(truncation may otherwise cut the attribution). -/
theorem short_summary_bound (footer title summary link : String) (resp : Option String) :
    (resp = none → short_summary footer title summary link resp = none) ∧
    (short_summary footer title summary link resp = none → resp = none) ∧
    (∀ content s, resp = some content →
      short_summary footer title summary link resp = some s →
      s.data.length ≤ 1024 ∧
      ((pyStrip content ++ "\n\nИсточник: " ++ link ++ footer).data.length ≤ 1024 →
        ends_with s ("\n\nИсточник: " ++ link ++ footer) = true)) := by
  refine ⟨?_, ?_, ?_⟩
  · intro h
    rw [h]
    rfl
  · intro h
    cases resp with
    | none => rfl
    | some c => exact absurd h (by simp [short_summary])
  · intro content s hc hs
    subst hc
    simp only [short_summary, Option.some.injEq] at hs
    subst hs
    constructor
    · exact List.length_take_le _ _
    · intro hlen
      have htake :
          ((pyStrip content ++ "\n\nИсточник: " ++ link ++ footer).data).take 1024 =
            (pyStrip content ++ "\n\nИсточник: " ++ link ++ footer).data :=
        List.take_of_length_le hlen
      show (("\n\nИсточник: " ++ link ++ footer).data.reverse.isPrefixOf
        (String.mk (((pyStrip content ++ "\n\nИсточник: " ++ link ++ footer).data).take 1024)).data.reverse) = true
      rw [htake]
      have hdata : (pyStrip content ++ "\n\nИсточник: " ++ link ++ footer).data =
          (pyStrip content).data ++ ("\n\nИсточник: " ++ link ++ footer).data := by
        simp [String.data_append, List.append_assoc]
      rw [hdata, List.reverse_append]
      exact isPrefixOf_self_append _ _

/-- C9 witness: a short model response yields a post of at most 1024
characters ending with the attribution line. -/
theorem short_summary_bound_witness :
    ("hi\n\nИсточник: L" : String).data.length ≤ 1024 ∧
      ((pyStrip " hi " ++ "\n\nИсточник: " ++ "L" ++ "").data.length ≤ 1024 →
        ends_with "hi\n\nИсточник: L" ("\n\nИсточник: " ++ "L" ++ "") = true) :=
  (short_summary_bound "" "t" "s" "L" (some " hi ")).2.2 " hi " "hi\n\nИсточник: L"
    rfl (by decide)
